/-
Verification of the intent-provider subsystem of ctx-cli.

This file gives a shallow embedding, in Lean 4, of the provider subsystem:
the Antigravity provider's Markdown extractors and confidence score
(src/providers/antigravity-provider.ts), the ClaudeCode provider's goal,
task and confidence computations (src/providers/claude-code-provider.ts),
and the provider registry (src/providers/registry.ts).  Pure string and
list processing is translated directly; the surrounding file-system I/O
(directory globbing, mtime-based session selection, file reads) is
abstracted into explicit inputs (an `AgSession` record carrying the two
artifact files' existence flags and contents; a list of parsed messages;
a list of provider outcomes).  JavaScript numbers are modelled as exact
rationals, JavaScript strings as Lean strings (ASCII inputs, '\n' line
separators), and JavaScript falsiness of optional string fields by
`Option String` together with explicit emptiness checks where the code
tests truthiness of a string value.
-/
import Mathlib

namespace CtxCli

/-! ## String primitives

JavaScript string operations are modelled on the character list of a Lean
string, by structural recursion, so that every definition evaluates
inside the kernel.  Inputs are taken to be ASCII with `'\n'` line
separators, on which these agree with the JavaScript operations the
source uses. -/

/-- Prefix test on character lists. -/
def leadsWith : List Char → List Char → Bool
  | _, [] => true
  | [], _ :: _ => false
  | a :: as, b :: bs => a = b && leadsWith as bs

/-- `s.startsWith(p)`. -/
def chStarts (s p : String) : Bool := leadsWith s.data p.data

/-- The substring of `s` from character index `n` on. -/
def chDrop (s : String) (n : ℕ) : String := ⟨s.data.drop n⟩

/-- `s.substring(0, n)`. -/
def chTake (s : String) (n : ℕ) : String := ⟨s.data.take n⟩

/-- Drop the longest prefix of characters satisfying `p`. -/
def chDropWhile (p : Char → Bool) (s : String) : String := ⟨s.data.dropWhile p⟩

/-- `s.length` (code points; the inputs are ASCII). -/
def chLength (s : String) : ℕ := s.data.length

/-- `s.trim()`: strip whitespace from both ends. -/
def chTrim (s : String) : String :=
  ⟨((s.data.dropWhile Char.isWhitespace).reverse.dropWhile Char.isWhitespace).reverse⟩

/-- ASCII lowering of one character, as `toLowerCase` acts on ASCII. -/
def asciiLower (c : Char) : Char :=
  if 'A' ≤ c ∧ c ≤ 'Z' then Char.ofNat (c.toNat + 32) else c

/-- `s.toLowerCase()` on ASCII input. -/
def chLower (s : String) : String := ⟨s.data.map asciiLower⟩

/-- `xs.join(sep)`. -/
def chJoin (sep : String) : List String → String
  | [] => ""
  | [x] => x
  | x :: y :: rest => ⟨x.data ++ sep.data ++ (chJoin sep (y :: rest)).data⟩

/-- Split a character list at `'\n'`; always non-empty. -/
def splitCharsNl : List Char → List (List Char)
  | [] => [[]]
  | c :: rest =>
    match splitCharsNl rest with
    | [] => []
    | g :: gs => if c = '\n' then [] :: g :: gs else (c :: g) :: gs

/-- `s.split('\n')`. -/
def splitLines (s : String) : List String :=
  (splitCharsNl s.data).map (fun l => ⟨l⟩)

/-- `Math.min` on the exact rationals modelling JavaScript numbers. -/
def ratMin (a b : ℚ) : ℚ := if a ≤ b then a else b

/-! ## String helpers shared by the extractors -/

/-- Case-insensitive prefix test: does `s` start with `kw` up to ASCII case?
`kw` is given in lowercase.  Models a JavaScript `/^kw/i` prefix match. -/
def lciStarts (kw : String) (s : String) : Bool :=
  chLower (chTake s (chLength kw)) = kw

/-- The remainder of a line after a leading `##` followed by at least one
whitespace character, as consumed by the section-heading regexes
`/^##\s+.../i`; `none` when the line has no such prefix. -/
def afterHashWs (l : String) : Option String :=
  if chStarts l "##" then
    let r := chDrop l 2
    match r.data with
    | [] => none
    | c :: _ => if c.isWhitespace then some (chDropWhile Char.isWhitespace r) else none
  else none

/-- Matches `/^##\s+Summary/i`. -/
def isSummaryHead (l : String) : Bool :=
  match afterHashWs l with
  | some r => lciStarts "summary" r
  | none => false

/-- Matches `/^##\s+(User Review Required|Decisions)/i`. -/
def isDecisionsHead (l : String) : Bool :=
  match afterHashWs l with
  | some r => lciStarts "user review required" r || lciStarts "decisions" r
  | none => false

/-- Matches `/^##\s+Trade-?offs/i`. -/
def isTradeoffsHead (l : String) : Bool :=
  match afterHashWs l with
  | some r => lciStarts "trade-offs" r || lciStarts "tradeoffs" r
  | none => false

/-- Matches `/^##\s+(Requirements|Constraints)/i`. -/
def isConstraintsHead (l : String) : Bool :=
  match afterHashWs l with
  | some r => lciStarts "requirements" r || lciStarts "constraints" r
  | none => false

/-- The capture of the checklist regex `/^[\s-]*\[[\sx/]\]\s+(.+)$/` on a
single line, already trimmed (every caller trims it); `none` when the line
does not match.  The leading `[\s-]*` run is deterministic because `[` is
neither whitespace nor `-`. -/
def checklistCapture (l : String) : Option String :=
  let r1 := chDropWhile (fun c => c.isWhitespace || c == '-') l
  if chStarts r1 "[" then
    let r2 := chDrop r1 1
    match r2.data with
    | [] => none
    | c :: _ =>
      if c.isWhitespace || c == 'x' || c == '/' then
        let r3 := chDrop r2 1
        if chStarts r3 "]" then
          let r4 := chDrop r3 1
          match r4.data with
          | [] => none
          | w :: tl =>
            if w.isWhitespace ∧ tl ≠ [] then
              some (chTrim (chDropWhile Char.isWhitespace r4))
            else none
        else none
      else none
  else none

/-- One attempted match of the unanchored alert regex
`/>\s*\[!(IMPORTANT|WARNING|CAUTION)\]/` starting at the front of `s`. -/
def alertAt (s : String) : Bool :=
  chStarts s ">" &&
    (let r := chDropWhile Char.isWhitespace (chDrop s 1)
     chStarts r "[!IMPORTANT]" || chStarts r "[!WARNING]" || chStarts r "[!CAUTION]")

/-- Does the unanchored alert regex match anywhere in the line? -/
def isAlertLine (l : String) : Bool :=
  (List.range (chLength l)).any (fun i => alertAt (chDrop l i))

/-- `replace(/^>\s*/, '')`: strip one leading `>` and following whitespace. -/
def stripGtWs (s : String) : String :=
  if chStarts s ">" then chDropWhile Char.isWhitespace (chDrop s 1) else s

/-! ## Antigravity provider (src/providers/antigravity-provider.ts)

Each `extract…` loop of the source walks the document's lines with an
`inSection` flag: a heading matching the section regex sets the flag and
`continue`s; once the flag is set, a line starting with `##` `break`s the
loop; otherwise a non-empty line not starting with `#` (for decisions,
also not starting with `>`) is pushed trimmed.  `agSectionLoop` is that
loop, parametric in the opening predicate and the extra filter. -/

/-- `line.trim() && !line.startsWith('#')`: the collect guard shared by
the section loops. -/
def agPlainLine (l : String) : Bool :=
  (chTrim l != "") && !chStarts l "#"

def agSectionLoop (isOpen : String → Bool) (keep : String → Bool) :
    List String → Bool → List String
  | [], _ => []
  | l :: rest, inS =>
    if isOpen l then agSectionLoop isOpen keep rest true
    else if inS && chStarts l "##" then []
    else if inS && (agPlainLine l && keep l) then
      chTrim l :: agSectionLoop isOpen keep rest inS
    else agSectionLoop isOpen keep rest inS

/-- `AntigravityProvider.extractGoals`: the first `# `-heading with its
marker (`/^#\s+/`) stripped, then the `## Summary` section lines, finally
filtered to positive length. -/
def agExtractGoals (planContent : String) : List String :=
  if planContent = "" then []
  else
    let lines := splitLines planContent
    let headGoals : List String :=
      match lines.find? (fun l => chStarts l "# ") with
      | some h => [chDropWhile Char.isWhitespace (chDrop h 1)]
      | none => []
    (headGoals ++ agSectionLoop isSummaryHead (fun _ => true) lines false).filter
      (fun g => 0 < chLength g)

/-- `AntigravityProvider.extractTasks`: every line matching the checklist
regex contributes its trimmed capture. -/
def agExtractTasks (taskContent : String) : List String :=
  if taskContent = "" then []
  else (splitLines taskContent).filterMap checklistCapture

/-- `AntigravityProvider.extractDecisions`. -/
def agExtractDecisions (planContent : String) : List String :=
  if planContent = "" then []
  else agSectionLoop isDecisionsHead (fun l => !chStarts l ">")
    (splitLines planContent) false

/-- `AntigravityProvider.extractConstraints`. -/
def agExtractConstraints (planContent : String) : List String :=
  if planContent = "" then []
  else agSectionLoop isConstraintsHead (fun _ => true)
    (splitLines planContent) false

/-- The element directly after the first occurrence of `l` in `all`:
`lines[lines.indexOf(line) + 1]` guarded by `nextLineIdx < lines.length`. -/
def nextAfterFirst : List String → String → Option String
  | [], _ => none
  | x :: rest, l => if x = l then rest.head? else nextAfterFirst rest l

/-- The tradeoffs pushed by the alert branch for a scanned line `l`: the
line after the first occurrence of `l`, with a leading `>` stripped back
and trimmed, when non-empty. -/
def alertContribution (all : List String) (l : String) : List String :=
  match nextAfterFirst all l with
  | none => []
  | some nl =>
    let c := chTrim (stripGtWs nl)
    if c = "" then [] else [c]

/-- The loop body of `AntigravityProvider.extractTradeoffs`: the section
scan for `## Trade-offs`, plus — for every line reaching past the
`continue`/`break` statements — the alert contribution. -/
def tradeoffsLoop (all : List String) : List String → Bool → List String
  | [], _ => []
  | l :: rest, inT =>
    if isTradeoffsHead l then tradeoffsLoop all rest true
    else if inT && chStarts l "##" then []
    else
      (if inT && agPlainLine l then [chTrim l] else []) ++
      (if isAlertLine l then alertContribution all l else []) ++
      tradeoffsLoop all rest inT

/-- `AntigravityProvider.extractTradeoffs`. -/
def agExtractTradeoffs (planContent : String) : List String :=
  if planContent = "" then []
  else
    let lines := splitLines planContent
    tradeoffsLoop lines lines false

/-- `AntigravityProvider.buildRawNotes`. -/
def agBuildRawNotes (taskContent planContent : String) : String :=
  chJoin "\n"
    ((if taskContent ≠ "" then ["=== Task Status ===", taskContent] else []) ++
     (if planContent ≠ "" then ["\n=== Implementation Plan ===", planContent] else []))

/-- `AntigravityProvider.calculateConfidence`, with JavaScript numbers as
exact rationals. -/
def agConfidence (artifactCount : ℕ) (taskContent planContent : String) : ℚ :=
  if artifactCount = 0 then 0
  else
    let confidence : ℚ := (artifactCount : ℚ) / 2
    let totalLength := chLength taskContent + chLength planContent
    let c1 := if 1000 < totalLength then ratMin 1 (confidence + 1/10) else confidence
    if totalLength < 100 then c1 * (1/2) else c1

/-- The normalized output record (src/providers/types.ts). -/
structure IntentBundle where
  goals : List String
  tasks : List String
  decisions : List String
  tradeoffs : List String
  constraints : List String
  rawNotes : String
  confidence : ℚ
  source : String

/-- The data of the newest Antigravity session directory as
`AntigravityProvider.collect` reads it: whether each of `task.md` and
`implementation_plan.md` exists, and its content when it does. -/
structure AgSession where
  taskExists : Bool
  taskContent : String
  planExists : Bool
  planContent : String

/-- The pure core of `AntigravityProvider.collect`, after the session
directory has been chosen: contents default to the empty string when the
file is absent, `artifactCount` counts existing files. -/
def agCollect (s : AgSession) : IntentBundle :=
  let taskContent := if s.taskExists then s.taskContent else ""
  let planContent := if s.planExists then s.planContent else ""
  let artifactCount := (if s.taskExists then 1 else 0) + (if s.planExists then 1 else 0)
  { goals := agExtractGoals planContent
    tasks := agExtractTasks taskContent
    decisions := agExtractDecisions planContent
    tradeoffs := agExtractTradeoffs planContent
    constraints := agExtractConstraints planContent
    rawNotes := agBuildRawNotes taskContent planContent
    confidence := agConfidence artifactCount taskContent planContent
    source := "antigravity" }

/-! ## ClaudeCode provider (src/providers/claude-code-provider.ts)

A parsed JSONL message is modelled by `Msg`.  Fields the source reads
through optional chaining or truthiness tests become `Option`s, with
`none` standing for an absent or falsy value; a `JContent.str ""` is the
one truthy-test exception the code can still see, handled by
`contentTruthy`. -/

/-- A content block inside an array-shaped `message.content`. -/
structure CBlock where
  blockType : Option String
  text : Option String

/-- The shapes `extractTextContent` distinguishes: a plain string, an
array of blocks, an object with a `text` field, anything else. -/
inductive JContent where
  | str (s : String)
  | blocks (bs : List CBlock)
  | obj (text : Option String)
  | other

/-- `ClaudeCodeProvider.extractTextContent`. -/
def extractTextContent : JContent → String
  | .str s => s
  | .blocks bs =>
    chJoin "\n"
      ((bs.filter (fun b => b.blockType = some "text")).map (fun b => b.text.getD ""))
  | .obj t => match t with
    | some s => s
    | none => ""
  | .other => ""

/-- JavaScript truthiness of a `message.content` value (arrays and
objects are truthy; a string is truthy when non-empty). -/
def contentTruthy : JContent → Bool
  | .str s => s ≠ ""
  | _ => true

/-- A `summary` field value: a string, or anything else carried as its
`JSON.stringify` rendering. -/
inductive SumVal where
  | str (s : String)
  | nonstr (stringified : String)

/-- The summary text: `typeof summary === 'string' ? summary :
JSON.stringify(summary)`. -/
def sumText : SumVal → String
  | .str s => s
  | .nonstr r => r

/-- One entry of a `todos` array. -/
structure Todo where
  content : Option String
  task : Option String
  doc : Option String      -- the `description` field
  status : Option String

/-- A parsed JSONL message, restricted to the fields the provider reads:
`type`, `message.content` (absent/falsy as `none`), `summary`
(absent/falsy as `none`), a top-level `todos` array (absent or non-array
as `none`), and the `content` of a tool result in its string form
(absent/falsy as `none`). -/
structure Msg where
  type : Option String
  msgContent : Option JContent
  summary : Option SumVal
  todos : Option (List Todo)
  toolContent : Option String

/-- The first `if` statement of the goal loop's body: a `user` message
with truthy content is pushed when no goal has been pushed yet and its
extracted text is under 500 characters. -/
def userStep (m : Msg) (acc : List String) : List String :=
  if m.type = some "user" then
    match m.msgContent with
    | some jc =>
      if contentTruthy jc then
        if acc.length = 0 ∧ chLength (extractTextContent jc) < 500 then
          acc ++ [extractTextContent jc]
        else acc
      else acc
    | none => acc
  else acc

/-- The second `if` statement of the goal loop's body: a `summary`
message's text is pushed, truncated to 500 characters, when its length is
under 1000. -/
def summaryStep (m : Msg) (acc : List String) : List String :=
  if m.type = some "summary" then
    match m.summary with
    | some sv =>
      if chLength (sumText sv) < 1000 then acc ++ [chTake (sumText sv) 500]
      else acc
    | none => acc
  else acc

/-- The goal accumulation loop of `ClaudeCodeProvider.extractGoals`: the
two `if` statements run in order for each message. -/
def cGoalsLoop : List Msg → List String → List String
  | [], acc => acc
  | m :: ms, acc => cGoalsLoop ms (summaryStep m (userStep m acc))

/-- `ClaudeCodeProvider.extractGoals`. -/
def cExtractGoals (msgs : List Msg) : List String :=
  (cGoalsLoop msgs []).take 5

/-- The falsy-chain `todo.content || todo.task || todo.description`,
followed by the truthiness guard on the result: the first non-empty of
the three fields, `none` otherwise. -/
def neOpt : Option String → Option String
  | some s => if s = "" then none else some s
  | none => none

def todoDesc (t : Todo) : Option String :=
  (neOpt t.content).orElse (fun _ => (neOpt t.task).orElse (fun _ => neOpt t.doc))

/-- `(todo.status || 'pending') === 'completed' ? '[x]' : '[ ]'`. -/
def todoMark (t : Todo) : String :=
  if t.status = some "completed" then "[x]" else "[ ]"

/-- The inner loop over one message's `todos` array, threading the pushed
tasks and the `seenTasks` set (modelled as a list with membership). -/
def todoLoop : List Todo → List String → List String × List String
  | [], seen => ([], seen)
  | t :: ts, seen =>
    match todoDesc t with
    | some tc =>
      if tc ∈ seen then todoLoop ts seen
      else
        ((todoMark t ++ " " ++ tc) :: (todoLoop ts (tc :: seen)).1,
         (todoLoop ts (tc :: seen)).2)
    | none => todoLoop ts seen

/-- The matches of `/^[\s-]*\[[\sx/]\]\s+.+$/gm` over a tool result's
text, each already trimmed as the source's `match.trim()` does (the match
is the whole line). -/
def checklistLines (c : String) : List String :=
  (splitLines c).filterMap
    (fun l => if (checklistCapture l).isSome then some (chTrim l) else none)

/-- The inner loop over the checklist lines of one tool result. -/
def resultLoop : List String → List String → List String × List String
  | [], seen => ([], seen)
  | cl :: cls, seen =>
    if cl ∈ seen then resultLoop cls seen
    else (cl :: (resultLoop cls (cl :: seen)).1, (resultLoop cls (cl :: seen)).2)

/-- The `todos` array of a message as iterated by the source (absent or
non-array: nothing). -/
def msgTodos (m : Msg) : List Todo := m.todos.getD []

/-- The tool-result text scanned for checklist lines:
`msg.type === 'tool_result' && msg.content`. -/
def msgResultText (m : Msg) : Option String :=
  if m.type = some "tool_result" then
    match m.toolContent with
    | some c => if c = "" then none else some c
    | none => none
  else none

/-- The checklist lines the tool-result scan of one message visits. -/
def msgClLines (m : Msg) : List String :=
  match msgResultText m with
  | some c => checklistLines c
  | none => []

/-- The per-message loop of `ClaudeCodeProvider.extractTasks`: first the
`todos` array, then the tool-result checklist scan, sharing `seenTasks`. -/
def tasksGo : List Msg → List String → List String
  | [], _ => []
  | m :: ms, seen =>
    (todoLoop (msgTodos m) seen).1 ++
    (resultLoop (msgClLines m) (todoLoop (msgTodos m) seen).2).1 ++
    tasksGo ms (resultLoop (msgClLines m) (todoLoop (msgTodos m) seen).2).2

/-- `ClaudeCodeProvider.extractTasks`. -/
def cExtractTasks (msgs : List Msg) : List String :=
  tasksGo msgs []

/-- `ClaudeCodeProvider.calculateConfidence`, with JavaScript numbers as
exact rationals. -/
def cConfidence (msgs : List Msg) : ℚ :=
  if msgs.length = 0 then 0
  else
    let c0 : ℚ := 3/10
    let c1 := if 5 < msgs.length then c0 + 2/10 else c0
    let c2 := if 20 < msgs.length then c1 + 1/10 else c1
    let c3 := if msgs.any (fun m => !(msgTodos m).isEmpty) then c2 + 2/10 else c2
    let c4 := if msgs.any (fun m => m.type = some "user") then c3 + 1/10 else c3
    let c5 := if msgs.any (fun m => m.type = some "assistant") then c4 + 1/10 else c4
    ratMin 1 c5

/-! ## Provider registry (src/providers/registry.ts)

A provider's two calls are modelled by their outcomes: `detectR` is the
result of `detect()` (`Except.error` for a thrown exception), `collectR`
the result of `collect()`.  `detectAndCollect` returns the bundle and the
trace of provider invocations actually performed, in order. -/

/-- One observable provider invocation. -/
inductive REv where
  | det (n : String)
  | col (n : String)
deriving DecidableEq, Repr

/-- A registered provider, by outcome. -/
structure RProvider (β : Type) where
  name : String
  detectR : Except Unit Bool
  collectR : Except Unit (Option β)

/-- `ProviderRegistry.getProviderByName`: first registered provider with
the given name. -/
def getProviderByName {β : Type} (ps : List (RProvider β)) (n : String) :
    Option (RProvider β) :=
  ps.find? (fun p => p.name = n)

/-- `ProviderRegistry.collectFromProvider`: resolve by name; absent name
returns null with no invocation; a thrown or false `detect()` returns
null without calling `collect()`; a thrown `collect()` returns null. -/
def collectFromProvider {β : Type} (ps : List (RProvider β)) (n : String) :
    Option β × List REv :=
  match getProviderByName ps n with
  | none => (none, [])
  | some p =>
    match p.detectR with
    | .error _ => (none, [.det p.name])
    | .ok false => (none, [.det p.name])
    | .ok true =>
      match p.collectR with
      | .error _ => (none, [.det p.name, .col p.name])
      | .ok r => (r, [.det p.name, .col p.name])

/-- The auto-detection loop of `ProviderRegistry.detectAndCollect`: try
providers in registration order; a throwing or false `detect()` moves on;
a throwing or null `collect()` moves on; the first non-null bundle is
returned at once. -/
def autoDetect {β : Type} : List (RProvider β) → Option β × List REv
  | [] => (none, [])
  | p :: ps =>
    match p.detectR with
    | .error _ =>
      let r := autoDetect ps
      (r.1, .det p.name :: r.2)
    | .ok false =>
      let r := autoDetect ps
      (r.1, .det p.name :: r.2)
    | .ok true =>
      match p.collectR with
      | .error _ =>
        let r := autoDetect ps
        (r.1, .det p.name :: .col p.name :: r.2)
      | .ok none =>
        let r := autoDetect ps
        (r.1, .det p.name :: .col p.name :: r.2)
      | .ok (some b) => (some b, [.det p.name, .col p.name])

/-- `ProviderRegistry.detectAndCollect`: the `INTENT_PROVIDER` value, when
set and non-empty (JavaScript truthiness), forces explicit mode. -/
def detectAndCollect {β : Type} (explicitProvider : Option String)
    (ps : List (RProvider β)) : Option β × List REv :=
  match explicitProvider with
  | some n => if n = "" then autoDetect ps else collectFromProvider ps n
  | none => autoDetect ps

/-! ## Claim-side characterizations

These definitions follow the wording of the specification's claims, to be
compared with the source-side functions above. -/

/-- Per the generic section rule of the spec: once the section is open,
collect every non-empty, non-heading line passing `keep`, trimmed, until
the first `##`-level heading closes it. -/
def sectionRun (keep : String → Bool) : List String → List String
  | [] => []
  | l :: rest =>
    if chStarts l "##" then []
    else if agPlainLine l && keep l then
      chTrim l :: sectionRun keep rest
    else sectionRun keep rest

/-- Per the generic section rule of the spec: a heading matching the
case-insensitive opening predicate opens the section, and the lines up to
the next `##`-level heading are collected. -/
def sectionLines (isOpen : String → Bool) (keep : String → Bool) :
    List String → List String
  | [] => []
  | l :: rest =>
    if isOpen l then sectionRun keep rest
    else sectionLines isOpen keep rest

/-- The lines of the plan document that the trade-offs loop scans fully,
i.e. those reaching the alert-marker check: opener lines (`continue`) are
skipped, and the loop stops at a `##` heading closing an open section. -/
def processedLines : List String → Bool → List String
  | [], _ => []
  | l :: rest, inT =>
    if isTradeoffsHead l then processedLines rest true
    else if inT && chStarts l "##" then []
    else l :: processedLines rest inT

/-- Per the amended task claim: the dedup keys and rendered texts a single
message contributes — one pair per todo entry (keyed by its description,
rendered with its completion marker), followed by one pair per checklist
line of its tool-result text (keyed and rendered by the full trimmed
matched line). -/
def taskItems (m : Msg) : List (String × String) :=
  ((msgTodos m).filterMap fun t =>
    (todoDesc t).map fun tc => (tc, todoMark t ++ " " ++ tc)) ++
  ((msgClLines m).map fun cl => (cl, cl))

/-- Keyed deduplication: emit each rendering whose key was not seen
before, threading the set of seen keys. -/
def dedupStep : List (String × String) → List String → List String × List String
  | [], seen => ([], seen)
  | (k, r) :: rest, seen =>
    if k ∈ seen then dedupStep rest seen
    else (r :: (dedupStep rest (k :: seen)).1, (dedupStep rest (k :: seen)).2)

/-- Per the amended task claim, the whole extraction: all messages'
items in order, deduplicated jointly by key. -/
def cExtractTasksSpec (msgs : List Msg) : List String :=
  (dedupStep (msgs.flatMap taskItems) []).1

/-- A user message's goal candidate per the goal claim: a `user`-type
message with (truthy) content whose extracted text is under 500
characters. -/
def userGoal (m : Msg) : Option String :=
  if m.type = some "user" then
    match m.msgContent with
    | some jc =>
      if contentTruthy jc then
        if chLength (extractTextContent jc) < 500 then some (extractTextContent jc)
        else none
      else none
    | none => none
  else none

/-- A summary message's goal candidate per the goal claim: summary text
(stringified if not a string) truncated to 500, kept when the original
length is under 1000. -/
def summaryGoal (m : Msg) : Option String :=
  if m.type = some "summary" then
    match m.summary with
    | some sv =>
      if chLength (sumText sv) < 1000 then some (chTake (sumText sv) 500) else none
    | none => none
  else none

/-- Per the amended goal claim: every summary goal in message order, plus
the first qualifying user goal provided it comes before any of them (the
flag records that no goal has been emitted yet). -/
def goalStream : List Msg → Bool → List String
  | [], _ => []
  | m :: ms, slot =>
    match (if slot then userGoal m else none) with
    | some c => c :: goalStream ms false
    | none =>
      match summaryGoal m with
      | some s => s :: goalStream ms false
      | none => goalStream ms slot

/-- Per the amended goal claim, the whole extraction, capped at 5. -/
def cExtractGoalsSpec (msgs : List Msg) : List String :=
  (goalStream msgs true).take 5

/-! ## Concrete inputs used by the claims -/

/-- The plan document of the spec's Antigravity scenario. -/
def scenarioPlan : String :=
  "# Add caching layer\n## Summary\nIntroduce LRU cache.\n## Trade-offs\nMemory usage increases."

/-- The Antigravity session of the spec's scenario: an empty but existing
`task.md` next to the plan document. -/
def scenarioSession : AgSession :=
  { taskExists := true, taskContent := "", planExists := true, planContent := scenarioPlan }

/-- A plan whose alert marker sits after the heading that closes the
`## Trade-offs` section. -/
def alertAfterClosePlan : String := "## Trade-offs\nX\n## End\n> [!WARNING]\nY"

/-- A plan that is only an alert marker and its payload line. -/
def alertOnlyPlan : String := "> [!WARNING]\nY"

/-- A message carrying a single pending todo described as `foo`. -/
def todoFooMsg : Msg :=
  { type := none, msgContent := none, summary := none,
    todos := some [{ content := some "foo", task := none, doc := none, status := none }],
    toolContent := none }

/-- A tool result whose text is the checklist line `[ ] foo`. -/
def toolFooMsg : Msg :=
  { type := some "tool_result", msgContent := none, summary := none,
    todos := none, toolContent := some "[ ] foo" }

/-- A summary message with text `S`. -/
def summaryS : Msg :=
  { type := some "summary", msgContent := none, summary := some (.str "S"),
    todos := none, toolContent := none }

/-- A user message with text `U`. -/
def userU : Msg :=
  { type := some "user", msgContent := some (.str "U"), summary := none,
    todos := none, toolContent := none }

/-- An assistant message with short text. -/
def assistantA : Msg :=
  { type := some "assistant", msgContent := some (.str "ok"), summary := none,
    todos := none, toolContent := none }

/-- A user message carrying a todos array of two items, the first
completed. -/
def userWithTodos : Msg :=
  { type := some "user", msgContent := some (.str "please"), summary := none,
    todos := some
      [{ content := some "d1", task := none, doc := none, status := some "completed" },
       { content := some "d2", task := none, doc := none, status := none }],
    toolContent := none }

/-- The three-message session of the spec's ClaudeCode scenario. -/
def scenarioMsgs : List Msg := [userU, assistantA, userWithTodos]

/-! ## Registry claims -/

/-- C1: in auto-detection mode the registry returns the bundle of the
first provider that detects and collects non-null; with a first provider
that detects but collects null, a second that detects and collects a
bundle, and a third that detects, the result is the second provider's
bundle and the third provider is never invoked — the invocation trace
consists exactly of the four calls to the first two providers. -/
theorem claim_C1 {β : Type} (b : β) (n1 n2 n3 : String)
    (c3 : Except Unit (Option β)) :
    detectAndCollect none
      [⟨n1, .ok true, .ok none⟩, ⟨n2, .ok true, .ok (some b)⟩, ⟨n3, .ok true, c3⟩] =
      (some b, [REv.det n1, REv.col n1, REv.det n2, REv.col n2]) := by
  rfl

/-- C2: with an explicit provider name that resolves to a registered
provider, the registry invokes only that provider: when its detect()
returns false the result is null with no collect() call and no other
provider touched; when detect() returns true the collect() result is
returned. -/
theorem claim_C2 {β : Type} (ps : List (RProvider β)) (n : String) (p : RProvider β)
    (hne : n ≠ "") (hf : getProviderByName ps n = some p) :
    (p.detectR = .ok false →
      detectAndCollect (some n) ps = (none, [REv.det p.name])) ∧
    (∀ r : Option β, p.detectR = .ok true → p.collectR = .ok r →
      detectAndCollect (some n) ps = (r, [REv.det p.name, REv.col p.name])) := by
  constructor
  · intro hd
    simp [detectAndCollect, hne, collectFromProvider, hf, hd]
  · intro r hd hc
    simp [detectAndCollect, hne, collectFromProvider, hf, hd, hc]

/-- Witness for C2: two registered providers, the second of which would
detect and collect, but the explicitly selected first one does not
detect: the registry returns null having invoked only the first one's
detect(). -/
theorem claim_C2_witness :
    detectAndCollect (some "antigravity")
      [(⟨"antigravity", .ok false, .ok none⟩ : RProvider ℕ),
       ⟨"claude-code", .ok true, .ok (some 1)⟩] =
      (none, [REv.det "antigravity"]) :=
  (claim_C2
    [(⟨"antigravity", .ok false, .ok none⟩ : RProvider ℕ),
     ⟨"claude-code", .ok true, .ok (some 1)⟩]
    "antigravity" ⟨"antigravity", .ok false, .ok none⟩
    (by decide) rfl).1 rfl

/-- C10: when the explicitly configured provider name matches no
registered provider, the registry returns null without invoking any
provider at all. -/
theorem claim_C10 {β : Type} (ps : List (RProvider β)) (n : String)
    (hne : n ≠ "") (hnf : getProviderByName ps n = none) :
    detectAndCollect (some n) ps = (none, []) := by
  simp [detectAndCollect, hne, collectFromProvider, hnf]

/-- Witness for C10: a registry holding one provider that would detect
and collect, asked explicitly for an unregistered name, returns null with
an empty invocation trace. -/
theorem claim_C10_witness :
    detectAndCollect (some "cursor")
      [(⟨"antigravity", .ok true, .ok (some 1)⟩ : RProvider ℕ)] = (none, []) :=
  claim_C10 [(⟨"antigravity", .ok true, .ok (some 1)⟩ : RProvider ℕ)] "cursor"
    (by decide) rfl

/-! ## Antigravity scenario claim -/

/-- C3 counterexample: on the spec's scenario the confidence is not 1.0 —
the combined content length is 89 < 100 characters, so the sparse-content
rule halves the base score. -/
theorem claim_C3_counterexample :
    (agCollect scenarioSession).confidence ≠ 1 := by
  simp +decide [agCollect, agConfidence, scenarioSession, ratMin]

/-- C3 amended: on the spec's scenario, goals, tradeoffs and tasks are as
claimed, and the confidence is 0.5: both artifacts exist so the base is
2/2 = 1.0, but the combined content length 89 is below 100, which halves
it. -/
theorem claim_C3_amended :
    (agCollect scenarioSession).goals = ["Add caching layer", "Introduce LRU cache."] ∧
    (agCollect scenarioSession).tasks = [] ∧
    (agCollect scenarioSession).tradeoffs = ["Memory usage increases."] ∧
    (agCollect scenarioSession).confidence = 1/2 := by
  refine ⟨by decide, by decide, by decide, ?_⟩
  simp +decide [agCollect, agConfidence, scenarioSession, ratMin]

/-! ## Section-scoping claim -/

theorem chStarts_of_afterHashWs {l : String} (h : afterHashWs l ≠ none) :
    chStarts l "##" = true := by
  by_cases hs : chStarts l "##" = true
  · exact hs
  · simp [afterHashWs, hs] at h

theorem summaryHead_starts {l : String} (h : isSummaryHead l = true) :
    chStarts l "##" = true := by
  apply chStarts_of_afterHashWs
  intro hA
  simp [isSummaryHead, hA] at h

theorem decisionsHead_starts {l : String} (h : isDecisionsHead l = true) :
    chStarts l "##" = true := by
  apply chStarts_of_afterHashWs
  intro hA
  simp [isDecisionsHead, hA] at h

theorem tradeoffsHead_starts {l : String} (h : isTradeoffsHead l = true) :
    chStarts l "##" = true := by
  apply chStarts_of_afterHashWs
  intro hA
  simp [isTradeoffsHead, hA] at h

theorem constraintsHead_starts {l : String} (h : isConstraintsHead l = true) :
    chStarts l "##" = true := by
  apply chStarts_of_afterHashWs
  intro hA
  simp [isConstraintsHead, hA] at h

/-- Inside the section, the spec-side run is a sublist of the source-side
loop (which may collect more because an opener-matching heading does not
close it). -/
theorem sectionRun_sub (isOpen keep : String → Bool)
    (hop : ∀ l, isOpen l = true → chStarts l "##" = true) :
    ∀ ls : List String, List.Sublist (sectionRun keep ls) (agSectionLoop isOpen keep ls true)
  | [] => by simp [sectionRun, agSectionLoop]
  | l :: rest => by
    cases hO : isOpen l with
    | true =>
      have hsh := hop l hO
      simp only [sectionRun, agSectionLoop, hsh, hO, if_true]
      exact List.nil_sublist _
    | false =>
      cases hsh : chStarts l "##" with
      | true =>
        simp only [sectionRun, hsh, if_true]
        exact List.nil_sublist _
      | false =>
        cases hk : agPlainLine l && keep l with
        | true =>
          simp only [sectionRun, agSectionLoop, hO, hsh, hk, Bool.true_and,
            Bool.false_and, if_true, if_false, Bool.false_eq_true]
          exact (sectionRun_sub isOpen keep hop rest).cons₂ _
        | false =>
          simp only [sectionRun, agSectionLoop, hO, hsh, hk, Bool.true_and,
            Bool.false_and, if_true, if_false, Bool.false_eq_true]
          exact sectionRun_sub isOpen keep hop rest

/-- Before the section opens, spec side and source side walk in step. -/
theorem sectionLines_sub (isOpen keep : String → Bool)
    (hop : ∀ l, isOpen l = true → chStarts l "##" = true) :
    ∀ ls : List String,
      List.Sublist (sectionLines isOpen keep ls) (agSectionLoop isOpen keep ls false)
  | [] => by simp [sectionLines, agSectionLoop]
  | l :: rest => by
    cases hO : isOpen l with
    | true =>
      simp only [sectionLines, agSectionLoop, hO, if_true]
      exact sectionRun_sub isOpen keep hop rest
    | false =>
      simp only [sectionLines, agSectionLoop, hO, Bool.false_and, if_false,
        Bool.false_eq_true]
      exact sectionLines_sub isOpen keep hop rest

/-- Every line the source-side loop collects is non-empty. -/
theorem agSectionLoop_ne (isOpen keep : String → Bool) :
    ∀ (ls : List String) (b : Bool) (x : String),
      x ∈ agSectionLoop isOpen keep ls b → x ≠ ""
  | [], b, x => by simp [agSectionLoop]
  | l :: rest, b, x => by
    intro hx
    cases hO : isOpen l with
    | true =>
      rw [show agSectionLoop isOpen keep (l :: rest) b =
            agSectionLoop isOpen keep rest true from by
          simp only [agSectionLoop, hO, if_true]] at hx
      exact agSectionLoop_ne isOpen keep rest true x hx
    | false =>
      cases b with
      | false =>
        rw [show agSectionLoop isOpen keep (l :: rest) false =
              agSectionLoop isOpen keep rest false from by
            simp only [agSectionLoop, hO, Bool.false_and, if_false, Bool.false_eq_true]] at hx
        exact agSectionLoop_ne isOpen keep rest false x hx
      | true =>
        cases hsh : chStarts l "##" with
        | true =>
          rw [show agSectionLoop isOpen keep (l :: rest) true = [] from by
              simp only [agSectionLoop, hO, hsh, Bool.true_and, if_true, if_false,
                Bool.false_eq_true]] at hx
          simp at hx
        | false =>
          cases hk : agPlainLine l && keep l with
          | true =>
            rw [show agSectionLoop isOpen keep (l :: rest) true =
                  chTrim l :: agSectionLoop isOpen keep rest true from by
                simp only [agSectionLoop, hO, hsh, hk, Bool.true_and, if_true, if_false,
                  Bool.false_eq_true]] at hx
            rcases List.mem_cons.mp hx with h | h
            · have h1 : (chTrim l != "") = true := by
                rcases Bool.and_eq_true_iff.mp hk with ⟨hp, _⟩
                exact (Bool.and_eq_true_iff.mp hp).1
              subst h
              simpa using h1
            · exact agSectionLoop_ne isOpen keep rest true x h
          | false =>
            rw [show agSectionLoop isOpen keep (l :: rest) true =
                  agSectionLoop isOpen keep rest true from by
                simp only [agSectionLoop, hO, hsh, hk, Bool.true_and, if_true, if_false,
                  Bool.false_eq_true]] at hx
            exact agSectionLoop_ne isOpen keep rest true x hx

/-- Non-empty strings have positive character length. -/
theorem chLength_pos {s : String} (h : s ≠ "") : 0 < chLength s := by
  cases s with
  | mk d =>
    cases d with
    | nil => exact absurd rfl h
    | cons c cs => simp [chLength]

/-- Inside the trade-offs section, the spec-side run is a sublist of the
trade-offs loop, which additionally pushes alert contributions. -/
theorem tradeRun_sub (all : List String) :
    ∀ ls : List String,
      List.Sublist (sectionRun (fun _ => true) ls) (tradeoffsLoop all ls true)
  | [] => by simp [sectionRun, tradeoffsLoop]
  | l :: rest => by
    cases hH : isTradeoffsHead l with
    | true =>
      have hsh := tradeoffsHead_starts hH
      simp only [sectionRun, hsh, if_true]
      exact List.nil_sublist _
    | false =>
      cases hsh : chStarts l "##" with
      | true =>
        simp only [sectionRun, hsh, if_true]
        exact List.nil_sublist _
      | false =>
        have hrec : List.Sublist (sectionRun (fun _ => true) rest)
            ((if isAlertLine l then alertContribution all l else []) ++
              tradeoffsLoop all rest true) :=
          (tradeRun_sub all rest).trans (List.sublist_append_right _ _)
        cases hk : agPlainLine l with
        | true =>
          simp only [sectionRun, tradeoffsLoop, hH, hsh, hk, Bool.true_and, Bool.and_true,
            if_true, if_false, Bool.false_eq_true, List.singleton_append]
          exact hrec.cons₂ _
        | false =>
          simp only [sectionRun, tradeoffsLoop, hH, hsh, hk, Bool.true_and, Bool.and_true,
            if_true, if_false, Bool.false_eq_true, List.nil_append]
          exact hrec

/-- Before the trade-offs section opens, the spec-side scan is a sublist
of the trade-offs loop. -/
theorem tradeLines_sub (all : List String) :
    ∀ ls : List String,
      List.Sublist (sectionLines isTradeoffsHead (fun _ => true) ls)
        (tradeoffsLoop all ls false)
  | [] => by simp [sectionLines, tradeoffsLoop]
  | l :: rest => by
    cases hH : isTradeoffsHead l with
    | true =>
      simp only [sectionLines, tradeoffsLoop, hH, if_true]
      exact tradeRun_sub all rest
    | false =>
      simp only [sectionLines, tradeoffsLoop, hH, Bool.false_and, if_false,
        Bool.false_eq_true, List.nil_append]
      exact (tradeLines_sub all rest).trans (List.sublist_append_right _ _)

/-- C4: for every section-scoped Antigravity extractor — Summary into
goals, Decisions / User Review Required into decisions, Trade-offs into
tradeoffs, Requirements / Constraints into constraints — the lines
collected by the specification's generic rule (a case-insensitive
lowercase heading match opens the section, the next `##`-prefixed heading
closes it, non-empty non-heading — for decisions also non-blockquote —
lines are taken trimmed) appear in the extractor's output verbatim and in
document order (as a sublist). -/
theorem claim_C4 (d : String) :
    List.Sublist (sectionLines isSummaryHead (fun _ => true) (splitLines d))
      (agExtractGoals d) ∧
    List.Sublist (sectionLines isDecisionsHead (fun l => !chStarts l ">") (splitLines d))
      (agExtractDecisions d) ∧
    List.Sublist (sectionLines isTradeoffsHead (fun _ => true) (splitLines d))
      (agExtractTradeoffs d) ∧
    List.Sublist (sectionLines isConstraintsHead (fun _ => true) (splitLines d))
      (agExtractConstraints d) := by
  by_cases hd : d = ""
  · subst hd
    refine ⟨?_, ?_, ?_, ?_⟩ <;> simp [splitLines, splitCharsNl, sectionLines,
      agExtractGoals, agExtractDecisions, agExtractTradeoffs, agExtractConstraints,
      isSummaryHead, isDecisionsHead, isTradeoffsHead, isConstraintsHead, afterHashWs,
      chStarts, leadsWith]
  · refine ⟨?_, ?_, ?_, ?_⟩
    · rw [show agExtractGoals d =
            ((match (splitLines d).find? (fun l => chStarts l "# ") with
              | some h => [chDropWhile Char.isWhitespace (chDrop h 1)]
              | none => []) ++
              agSectionLoop isSummaryHead (fun _ => true) (splitLines d) false).filter
              (fun g => 0 < chLength g) from by
          simp only [agExtractGoals, hd, if_false]]
      rw [List.filter_append]
      have hloop : (agSectionLoop isSummaryHead (fun _ => true) (splitLines d) false).filter
          (fun g => 0 < chLength g) =
          agSectionLoop isSummaryHead (fun _ => true) (splitLines d) false := by
        apply List.filter_eq_self.mpr
        intro a ha
        exact decide_eq_true (chLength_pos
          (agSectionLoop_ne isSummaryHead (fun _ => true) (splitLines d) false a ha))
      rw [hloop]
      exact ((sectionLines_sub isSummaryHead (fun _ => true)
        (fun l h => summaryHead_starts h) (splitLines d)).trans
        (List.sublist_append_right _ _))
    · rw [show agExtractDecisions d =
            agSectionLoop isDecisionsHead (fun l => !chStarts l ">") (splitLines d) false
          from by simp only [agExtractDecisions, hd, if_false]]
      exact sectionLines_sub isDecisionsHead (fun l => !chStarts l ">")
        (fun l h => decisionsHead_starts h) (splitLines d)
    · rw [show agExtractTradeoffs d =
            tradeoffsLoop (splitLines d) (splitLines d) false from by
          simp only [agExtractTradeoffs, hd, if_false]]
      exact tradeLines_sub (splitLines d) (splitLines d)
    · rw [show agExtractConstraints d =
            agSectionLoop isConstraintsHead (fun _ => true) (splitLines d) false
          from by simp only [agExtractConstraints, hd, if_false]]
      exact sectionLines_sub isConstraintsHead (fun _ => true)
        (fun l h => constraintsHead_starts h) (splitLines d)

/-! ## Alert-marker claim -/

/-- C5 counterexample: the alert scan is not independent of the
Trade-offs section — once a `##` heading closes an open section the loop
breaks, so an alert marker later in the document contributes nothing even
though its payload line is non-empty. -/
theorem claim_C5_counterexample :
    agExtractTradeoffs alertAfterClosePlan = ["X"] ∧
    isAlertLine "> [!WARNING]" = true ∧
    chTrim (stripGtWs "Y") = "Y" ∧
    "Y" ∉ agExtractTradeoffs alertAfterClosePlan := by
  refine ⟨by decide, by decide, by decide, by decide⟩

/-- Every alert marker among the lines the loop actually processes
contributes: the line after the first occurrence of the marker line's
text, stripped and trimmed, enters the output when non-empty. -/
theorem alertMem (all : List String) (l c : String)
    (hA : isAlertLine l = true) (hc : alertContribution all l = [c]) :
    ∀ (ls : List String) (inT : Bool),
      l ∈ processedLines ls inT → c ∈ tradeoffsLoop all ls inT
  | [], inT => by simp [processedLines]
  | l' :: rest, inT => by
    intro hm
    cases hH : isTradeoffsHead l' with
    | true =>
      rw [show processedLines (l' :: rest) inT = processedLines rest true from by
        simp only [processedLines, hH, if_true]] at hm
      rw [show tradeoffsLoop all (l' :: rest) inT = tradeoffsLoop all rest true from by
        simp only [tradeoffsLoop, hH, if_true]]
      exact alertMem all l c hA hc rest true hm
    | false =>
      cases hc2 : inT && chStarts l' "##" with
      | true =>
        rw [show processedLines (l' :: rest) inT = [] from by
          simp only [processedLines, hH, hc2, if_true, if_false, Bool.false_eq_true]] at hm
        simp at hm
      | false =>
        rw [show processedLines (l' :: rest) inT = l' :: processedLines rest inT from by
          simp only [processedLines, hH, hc2, if_false, Bool.false_eq_true]] at hm
        rw [show tradeoffsLoop all (l' :: rest) inT =
              (if inT && agPlainLine l' then [chTrim l'] else []) ++
              (if isAlertLine l' then alertContribution all l' else []) ++
              tradeoffsLoop all rest inT from by
            simp only [tradeoffsLoop, hH, hc2, if_false, Bool.false_eq_true]]
        rcases List.mem_cons.mp hm with h | h
        · subst h
          refine List.mem_append.mpr (Or.inl (List.mem_append.mpr (Or.inr ?_)))
          simp [hA, hc]
        · exact List.mem_append.mpr (Or.inr (alertMem all l c hA hc rest inT h))

/-- C5 amended: for every line of the plan document that the trade-offs
loop scans before a `##` heading closes an open Trade-offs section and
that matches a GitHub-style alert marker, the line immediately following
the first occurrence of that marker line's text — with its leading `>`
stripped and trimmed — is appended to tradeoffs whenever it is non-empty.
(The original claim fails in two ways the code exhibits: the scan stops
at the section close, and a duplicated marker line always contributes the
successor of its first occurrence.) -/
theorem claim_C5_amended (d l c : String) (hd : d ≠ "")
    (hm : l ∈ processedLines (splitLines d) false)
    (hA : isAlertLine l = true)
    (hc : alertContribution (splitLines d) l = [c]) :
    c ∈ agExtractTradeoffs d := by
  rw [show agExtractTradeoffs d = tradeoffsLoop (splitLines d) (splitLines d) false from by
    simp only [agExtractTradeoffs, hd, if_false]]
  exact alertMem (splitLines d) l c hA hc (splitLines d) false hm

/-- Witness for the amended C5 on a concrete document consisting of an
alert marker and its payload. -/
theorem claim_C5_witness :
    "> [!WARNING]" ∈ processedLines (splitLines alertOnlyPlan) false ∧
    "Y" ∈ agExtractTradeoffs alertOnlyPlan :=
  ⟨by decide,
   claim_C5_amended alertOnlyPlan "> [!WARNING]" "Y" (by decide) (by decide)
     (by decide) (by decide)⟩

/-! ## Task-extraction claim -/

/-- C6 counterexample: the checklist line `[ ] foo` of a tool result is
keyed by its full trimmed text, not by the description `foo` already seen
from a todo entry, so the output holds the same rendered task twice — no
joint deduplication by description text happens. -/
theorem claim_C6_counterexample :
    cExtractTasks [todoFooMsg, toolFooMsg] = ["[ ] foo", "[ ] foo"] ∧
    ¬ (cExtractTasks [todoFooMsg, toolFooMsg]).Nodup := by
  refine ⟨by decide, by decide⟩

/-- Deduplication distributes over appended item lists, threading the
seen keys. -/
theorem dedup_append :
    ∀ (a b : List (String × String)) (seen : List String),
      dedupStep (a ++ b) seen =
        ((dedupStep a seen).1 ++ (dedupStep b (dedupStep a seen).2).1,
         (dedupStep b (dedupStep a seen).2).2)
  | [], b, seen => by simp [dedupStep]
  | (k, r) :: rest, b, seen => by
    by_cases hk : k ∈ seen
    · simp only [List.cons_append, dedupStep, if_pos hk]
      exact dedup_append rest b seen
    · simp only [List.cons_append, dedupStep, if_neg hk, List.append_eq]
      rw [dedup_append rest b (k :: seen)]

/-- The todo phase equals keyed deduplication of the todo items. -/
theorem todoLoop_eq :
    ∀ (ts : List Todo) (seen : List String),
      todoLoop ts seen =
        dedupStep (ts.filterMap fun t =>
          (todoDesc t).map fun tc => (tc, todoMark t ++ " " ++ tc)) seen
  | [], seen => by simp [todoLoop, dedupStep]
  | t :: ts, seen => by
    cases htd : todoDesc t with
    | none =>
      simp only [todoLoop, htd, List.filterMap_cons, Option.map_none]
      exact todoLoop_eq ts seen
    | some tc =>
      simp only [todoLoop, htd, List.filterMap_cons, Option.map_some]
      by_cases hk : tc ∈ seen
      · simp only [dedupStep, if_pos hk]
        exact todoLoop_eq ts seen
      · simp only [dedupStep, if_neg hk]
        rw [todoLoop_eq ts (tc :: seen)]

/-- The tool-result phase equals keyed deduplication of the checklist
lines, each its own key. -/
theorem resultLoop_eq :
    ∀ (cls : List String) (seen : List String),
      resultLoop cls seen = dedupStep (cls.map fun cl => (cl, cl)) seen
  | [], seen => by simp [resultLoop, dedupStep]
  | cl :: cls, seen => by
    by_cases hk : cl ∈ seen
    · simp only [resultLoop, List.map_cons, dedupStep, if_pos hk]
      exact resultLoop_eq cls seen
    · simp only [resultLoop, List.map_cons, dedupStep, if_neg hk]
      rw [resultLoop_eq cls (cl :: seen)]

/-- The whole task loop equals keyed deduplication of all messages'
items. -/
theorem tasksGo_eq :
    ∀ (msgs : List Msg) (seen : List String),
      tasksGo msgs seen = (dedupStep (msgs.flatMap taskItems) seen).1
  | [], seen => by simp [tasksGo, dedupStep]
  | m :: ms, seen => by
    rw [show (m :: ms).flatMap taskItems = taskItems m ++ ms.flatMap taskItems from by
      simp [List.flatMap_cons]]
    rw [dedup_append (taskItems m) (ms.flatMap taskItems) seen]
    rw [show taskItems m =
          ((msgTodos m).filterMap fun t =>
            (todoDesc t).map fun tc => (tc, todoMark t ++ " " ++ tc)) ++
          ((msgClLines m).map fun cl => (cl, cl)) from rfl]
    rw [dedup_append]
    simp only [tasksGo]
    rw [todoLoop_eq (msgTodos m) seen, resultLoop_eq (msgClLines m)]
    rw [tasksGo_eq ms]

/-- C6 amended: todo entries contribute one task per distinct description
(first of content/task/description), rendered `[x] desc` when completed
and `[ ] desc` otherwise, deduplicated by description; tool-result
checklist lines matched by the bracket-pattern regex are deduplicated
jointly with them through one shared seen-set, but keyed by the full
trimmed matched line (marker included), not by the description text. -/
theorem claim_C6_amended (msgs : List Msg) :
    cExtractTasks msgs = cExtractTasksSpec msgs :=
  tasksGo_eq msgs []

/-! ## Goal-extraction claim -/

/-- C7 counterexample: a summary message ahead of the first user message
fills the goals list, and the user-branch guard `goals.length === 0` then
rejects the qualifying first user message: its text `U` never becomes a
goal. -/
theorem claim_C7_counterexample :
    cExtractGoals [summaryS, userU] = ["S"] ∧
    userGoal userU = some "U" ∧
    "U" ∉ cExtractGoals [summaryS, userU] := by
  refine ⟨by decide, by decide, by decide⟩

/-- The user branch acts only on an empty accumulator, where it appends
the user goal candidate. -/
theorem userStep_eq (m : Msg) (acc : List String) :
    userStep m acc =
      match (if acc.isEmpty then userGoal m else none) with
      | some c => acc ++ [c]
      | none => acc := by
  cases acc with
  | nil =>
    simp only [List.isEmpty_nil, if_true]
    unfold userStep userGoal
    by_cases hT : m.type = some "user"
    · simp only [hT, if_true]
      cases hC : m.msgContent with
      | none => simp
      | some jc =>
        by_cases htr : contentTruthy jc = true
        · by_cases hlen : chLength (extractTextContent jc) < 500
          · simp [htr, hlen]
          · simp [htr, hlen]
        · simp [htr]
    · simp [hT]
  | cons a as =>
    simp only [List.isEmpty_cons, if_false, Bool.false_eq_true]
    unfold userStep
    by_cases hT : m.type = some "user"
    · simp only [hT, if_true]
      cases hC : m.msgContent with
      | none => simp
      | some jc =>
        by_cases htr : contentTruthy jc = true
        · simp [htr]
        · simp [htr]
    · simp [hT]

/-- The summary branch appends the summary goal candidate regardless of
the accumulator. -/
theorem summaryStep_eq (m : Msg) (acc : List String) :
    summaryStep m acc =
      match summaryGoal m with
      | some s => acc ++ [s]
      | none => acc := by
  unfold summaryStep summaryGoal
  by_cases hT : m.type = some "summary"
  · simp only [hT, if_true]
    cases hS : m.summary with
    | none => simp
    | some sv =>
      by_cases hlen : chLength (sumText sv) < 1000
      · simp [hlen]
      · simp [hlen]
  · simp [hT]

/-- A message has one type: a user goal candidate excludes a summary
one. -/
theorem summaryGoal_of_userGoal {m : Msg} {c : String}
    (h : userGoal m = some c) : summaryGoal m = none := by
  unfold userGoal at h
  by_cases hT : m.type = some "user"
  · unfold summaryGoal
    rw [hT]
    simp
  · simp [hT] at h

/-- The goal loop is the claim-side stream appended to the incoming
accumulator, the user slot being open exactly while the accumulator is
empty. -/
theorem cGoalsLoop_eq :
    ∀ (msgs : List Msg) (acc : List String),
      cGoalsLoop msgs acc = acc ++ goalStream msgs acc.isEmpty
  | [], acc => by simp [cGoalsLoop, goalStream]
  | m :: ms, acc => by
    rw [show cGoalsLoop (m :: ms) acc = cGoalsLoop ms (summaryStep m (userStep m acc))
      from rfl]
    rw [userStep_eq m acc]
    cases hE : acc.isEmpty with
    | true =>
      have hacc : acc = [] := by
        cases acc with
        | nil => rfl
        | cons a as => simp at hE
      subst hacc
      cases hU : userGoal m with
      | some c =>
        simp only [List.isEmpty_nil, if_true, hU]
        rw [summaryStep_eq m ([] ++ [c]), summaryGoal_of_userGoal hU]
        rw [cGoalsLoop_eq ms ([] ++ [c])]
        simp [goalStream, hU]
      | none =>
        simp only [List.isEmpty_nil, if_true, hU]
        rw [summaryStep_eq m []]
        cases hS : summaryGoal m with
        | some s =>
          rw [cGoalsLoop_eq ms ([] ++ [s])]
          simp [goalStream, hU, hS]
        | none =>
          rw [cGoalsLoop_eq ms []]
          simp [goalStream, hU, hS]
    | false =>
      simp only [hE, if_false, Bool.false_eq_true]
      rw [summaryStep_eq m acc]
      cases hS : summaryGoal m with
      | some s =>
        rw [cGoalsLoop_eq ms (acc ++ [s])]
        rw [show goalStream (m :: ms) false = s :: goalStream ms false from by
          simp [goalStream, hS]]
        rw [show (acc ++ [s]).isEmpty = false from by
          simp [List.isEmpty_iff]]
        simp
      | none =>
        rw [cGoalsLoop_eq ms acc]
        rw [show goalStream (m :: ms) false = goalStream ms false from by
          simp [goalStream, hS]]
        simp [hE]

/-- C7 amended: the goals are every summary-type message's qualifying
summary text in message order, plus the first user-type message whose
extracted text is under 500 characters provided it precedes every
summary-derived goal (the user branch fires only while the goals list is
still empty), capped at 5. -/
theorem claim_C7_amended (msgs : List Msg) :
    cExtractGoals msgs = cExtractGoalsSpec msgs := by
  unfold cExtractGoals cExtractGoalsSpec
  rw [cGoalsLoop_eq msgs []]
  simp

/-! ## Confidence claims -/

/-- ClaudeCode confidence as a sum of indicator terms. -/
theorem cConfidence_formula (msgs : List Msg) :
    cConfidence msgs =
      if msgs.length = 0 then 0
      else ratMin 1 ((3/10 : ℚ) +
        (if 5 < msgs.length then 2/10 else 0) +
        (if 20 < msgs.length then 1/10 else 0) +
        (if msgs.any (fun m => !(msgTodos m).isEmpty) then 2/10 else 0) +
        (if msgs.any (fun m => m.type = some "user") then 1/10 else 0) +
        (if msgs.any (fun m => m.type = some "assistant") then 1/10 else 0)) := by
  simp only [cConfidence]
  split_ifs <;> norm_num

/-- C8: ClaudeCode confidence is 0 on an empty message sequence and
otherwise the base 0.3 plus 0.2 for more than 5 messages, 0.1 for more
than 20, 0.2 for any non-empty todos array, 0.1 for a user message, 0.1
for an assistant message, capped at 1; on the three-turn scenario with
one todos array it is 0.7. -/
theorem claim_C8 :
    (∀ msgs : List Msg,
      cConfidence msgs =
        if msgs.length = 0 then 0
        else ratMin 1 ((3/10 : ℚ) +
          (if 5 < msgs.length then 2/10 else 0) +
          (if 20 < msgs.length then 1/10 else 0) +
          (if msgs.any (fun m => !(msgTodos m).isEmpty) then 2/10 else 0) +
          (if msgs.any (fun m => m.type = some "user") then 1/10 else 0) +
          (if msgs.any (fun m => m.type = some "assistant") then 1/10 else 0))) ∧
    cConfidence scenarioMsgs = 7/10 := by
  refine ⟨cConfidence_formula, ?_⟩
  rw [cConfidence_formula scenarioMsgs]
  rw [show scenarioMsgs.length = 3 from rfl]
  rw [show scenarioMsgs.any (fun m => !(msgTodos m).isEmpty) = true from by decide]
  rw [show scenarioMsgs.any (fun m => m.type = some "user") = true from by decide]
  rw [show scenarioMsgs.any (fun m => m.type = some "assistant") = true from by decide]
  norm_num [ratMin]

/-- C9: every confidence a provider computes lies in [0,1]; with no
artifacts (both Antigravity files absent, or an empty ClaudeCode message
sequence) it is exactly 0.  The stub Cursor and Aider providers never
return a bundle, so the claim concerns the two real providers. -/
theorem claim_C9 :
    (∀ s : AgSession,
      0 ≤ (agCollect s).confidence ∧ (agCollect s).confidence ≤ 1) ∧
    (∀ s : AgSession, s.taskExists = false → s.planExists = false →
      (agCollect s).confidence = 0) ∧
    (∀ msgs : List Msg, 0 ≤ cConfidence msgs ∧ cConfidence msgs ≤ 1) ∧
    (∀ msgs : List Msg, msgs = [] → cConfidence msgs = 0) := by
  refine ⟨?_, ?_, ?_, ?_⟩
  · intro s
    rcases s with ⟨te, tc, pe, pc⟩
    cases te <;> cases pe <;>
      simp only [agCollect, agConfidence] <;>
      split_ifs <;> constructor <;> norm_num [ratMin]
  · intro s h1 h2
    simp [agCollect, agConfidence, h1, h2]
  · intro msgs
    simp only [cConfidence]
    split_ifs <;> constructor <;> norm_num [ratMin]
  · intro msgs h
    subst h
    simp [cConfidence]

/-- Witness for C9 at concrete inputs: a session with both files absent
has confidence exactly 0, the empty message sequence has confidence 0,
and the scenario session's confidence is within bounds. -/
theorem claim_C9_witness :
    (agCollect ⟨false, "", false, ""⟩).confidence = 0 ∧
    cConfidence [] = 0 ∧
    0 ≤ cConfidence scenarioMsgs ∧ cConfidence scenarioMsgs ≤ 1 :=
  ⟨claim_C9.2.1 ⟨false, "", false, ""⟩ rfl rfl, claim_C9.2.2.2 [] rfl,
   (claim_C9.2.2.1 scenarioMsgs).1, (claim_C9.2.2.1 scenarioMsgs).2⟩

end CtxCli
